import Mathlib

set_option autoImplicit false

namespace PqUtils

/-! Shallow embedding of pq-utils (src/main.rs), a CLI that prints parquet
rows as CSV or JSON and prints the schema as a table.  The external parquet
library (the Row Source) is modelled abstractly: opening a file either fails
with an error message or yields the ordered column descriptors together with
the row iterator's outcomes (each row read either fails with a parquet error
or yields the row's positional field values). -/

/-- Column metadata as exposed by the parquet schema descriptor: name,
physical type and optional logical type; the optional string already holds
the Debug rendering the code produces from the logical type. -/
structure ColumnDescr where
  name : String
  physical_type : String
  logical_type : Option String
deriving DecidableEq

/-- Abstract model of a parquet f32/f64 value: whether it is finite (NaN and
infinities are the non-finite ones) and its decimal text rendering. -/
structure FloatVal where
  isFinite : Bool
  text : String
deriving DecidableEq

/-- Tagged field value, following the match arms of the source: the code
distinguishes Str, Int (i32), Long (i64), Float (f32), Double (f64) and Bool,
and treats every remaining parquet tag uniformly through its Display text,
which the Other arm carries. -/
inductive Field where
  | Str : String → Field
  | Int : Int → Field
  | Long : Int → Field
  | Float : FloatVal → Field
  | Double : FloatVal → Field
  | Bool : Bool → Field
  | Other : String → Field
deriving DecidableEq

/-- Display rendering of a field value (parquet's impl Display for Field):
strings are shown quoted, integers in decimal, booleans as true/false,
floats by their decimal text, any other tag by the text it carries. -/
def fieldToString : Field → String
  | .Str s => "\"" ++ s ++ "\""
  | .Int i => toString i
  | .Long i => toString i
  | .Float v => v.text
  | .Double v => v.text
  | .Bool b => if b then "true" else "false"
  | .Other t => t

/-- Outcome of one row read from the Row Source iterator
(parquet yields Result of Row). -/
abbrev RowResult := Except String (List Field)

instance {ε α : Type _} [DecidableEq ε] [DecidableEq α] : DecidableEq (Except ε α) :=
  fun x y =>
    match x, y with
    | Except.ok a, Except.ok b =>
        if h : a = b then isTrue (by rw [h])
        else isFalse (by intro hh; cases hh; exact h rfl)
    | Except.ok _, Except.error _ => isFalse (fun hh => Except.noConfusion hh)
    | Except.error _, Except.ok _ => isFalse (fun hh => Except.noConfusion hh)
    | Except.error a, Except.error b =>
        if h : a = b then isTrue (by rw [h])
        else isFalse (by intro hh; cases hh; exact h rfl)

/-- Largest usize value; cat passes None and the code takes
num_records.unwrap_or(u64::MAX) rows. -/
def u64Max : Nat := 2 ^ 64 - 1

/-! CSV path (display_parquet_data_csv). -/

/-- CSV projection of one field: a Str value is used verbatim, every other
tag goes through its Display rendering (the match in the csv loop). -/
def csvField : Field → String
  | .Str s => s
  | f => fieldToString f

/-- Whether the csv crate must quote a field: it contains the delimiter, the
quote character or a line-break character. -/
def needsQuoting : List Char → Bool
  | [] => false
  | c :: rest => (c = ',' || c = '"' || c = '\n' || c = '\r') || needsQuoting rest

/-- Double every embedded quote character, as the csv writer does inside a
quoted field. -/
def doubleQuotes : List Char → List Char
  | [] => []
  | c :: rest => if c = '"' then '"' :: '"' :: doubleQuotes rest else c :: doubleQuotes rest

/-- Quote and escape one field the way the csv crate's default writer does
(QuoteStyle::Necessary with doubled quotes). -/
def escapeCsvField (s : String) : String :=
  if needsQuoting s.data then "\"" ++ String.mk (doubleQuotes s.data) ++ "\"" else s

/-- Serialize one CSV record: the escaped fields joined by commas and closed
by the record terminator. -/
def writeRecord : List String → String
  | [] => "\n"
  | [f] => escapeCsvField f ++ "\n"
  | f :: fs => escapeCsvField f ++ "," ++ writeRecord fs

/-- Concatenation of a list of strings. -/
def strJoin : List String → String
  | [] => ""
  | s :: rest => s ++ strJoin rest

/-- Body of the csv loop: write one record per successfully read row, stop at
the first row error, and (like the csv crate with flexible off) fail with an
UnequalLengths error on a record whose field count differs from the header
record already written.  Returns the text that reached standard output
together with the result; the writer is flushed (dropped) on every path, so
records written before a failure stay emitted. -/
def csvWriteRows (n : Nat) : List RowResult → String × Except String Unit
  | [] => ("", Except.ok ())
  | Except.error e :: _ => ("", Except.error e)
  | Except.ok row :: rest =>
      if row.length = n then
        let out := csvWriteRows n rest
        (writeRecord (row.map csvField) ++ out.1, out.2)
      else
        ("", Except.error "UnequalLengths")

/-- Model of display_parquet_data_csv after the reader is built: truncate the
row iterator to num_records (u64::MAX when None), write the header record of
column names in descriptor order, then stream one record per row. -/
def display_parquet_data_csv (cols : List ColumnDescr) (records : List RowResult)
    (num_records : Option Nat) : String × Except String Unit :=
  let iter := records.take (num_records.getD u64Max)
  let headers := cols.map ColumnDescr.name
  let out := csvWriteRows headers.length iter
  (writeRecord headers ++ out.1, out.2)

/-! JSON path (display_parquet_data_json). -/

/-- JSON number as serde_json builds it here: from an i32/i64 (lossless) or
from a finite double. -/
inductive JsonNumber where
  | ofInt : Int → JsonNumber
  | ofFloat : FloatVal → JsonNumber
deriving DecidableEq

/-- JSON values the projection produces. -/
inductive JsonValue where
  | str : String → JsonValue
  | num : JsonNumber → JsonValue
  | bool : Bool → JsonValue
deriving DecidableEq

/-- A serde_json object as a key-value sequence. -/
abbrev JsonObject := List (String × JsonValue)

/-- Map insertion as serde_json::Map::insert behaves: an existing key keeps
its position and gets the new value, a new key is appended. -/
def mapInsert : JsonObject → String → JsonValue → JsonObject
  | [], k, v => [(k, v)]
  | p :: rest, k, v => if p.1 == k then (k, v) :: rest else p :: mapInsert rest k v

/-- serde_json::Number::from_f64: defined only for finite values, None on NaN
or an infinity. -/
def from_f64 (v : FloatVal) : Option JsonNumber :=
  if v.isFinite then some (JsonNumber.ofFloat v) else none

/-- JSON projection of one field by tag (the match in the json loop); none
models the unwrap panic on a non-finite float. -/
def jsonOfField : Field → Option JsonValue
  | .Str s => some (JsonValue.str s)
  | .Int i => some (JsonValue.num (JsonNumber.ofInt i))
  | .Long i => some (JsonValue.num (JsonNumber.ofInt i))
  | .Float v => (from_f64 v).map JsonValue.num
  | .Double v => (from_f64 v).map JsonValue.num
  | .Bool b => some (JsonValue.bool b)
  | f => some (JsonValue.str (fieldToString f))

/-- Failure of a display function: an I/O or parquet error propagated with
the question-mark operator (caught in main), or a panic (which aborts the
process). -/
inductive CmdError where
  | ioError : String → CmdError
  | panic : CmdError
deriving DecidableEq

/-- Inner loop over one row's fields: field i is converted by tag and
inserted under the name of column i taken from the schema descriptor; a
non-finite float (or an out-of-range column index) panics. -/
def jsonRowLoop (cols : List ColumnDescr) : Nat → List Field → JsonObject →
    Except CmdError JsonObject
  | _, [], obj => Except.ok obj
  | i, f :: rest, obj =>
      match cols.get? i with
      | none => Except.error CmdError.panic
      | some col =>
          match jsonOfField f with
          | none => Except.error CmdError.panic
          | some v => jsonRowLoop cols (i + 1) rest (mapInsert obj col.name v)

/-- Projection of one row to a JSON object. -/
def jsonRowObject (cols : List ColumnDescr) (row : List Field) :
    Except CmdError JsonObject :=
  jsonRowLoop cols 0 row []

/-- Collect every projected row into the buffered vector, stopping at the
first row error or panic. -/
def jsonCollectRows (cols : List ColumnDescr) : List RowResult →
    Except CmdError (List JsonObject)
  | [] => Except.ok []
  | Except.error e :: _ => Except.error (CmdError.ioError e)
  | Except.ok row :: rest =>
      match jsonRowObject cols row with
      | Except.error e => Except.error e
      | Except.ok obj =>
          match jsonCollectRows cols rest with
          | Except.error e => Except.error e
          | Except.ok objs => Except.ok (obj :: objs)

/-- Lowercase hexadecimal digit. -/
def hexDigit (n : Nat) : Char :=
  if n < 10 then Char.ofNat (48 + n) else Char.ofNat (87 + n)

/-- Escape one character inside a JSON string the way serde_json does. -/
def jsonEscapeChar (c : Char) : List Char :=
  if c = '"' then ['\\', '"']
  else if c = '\\' then ['\\', '\\']
  else if c = '\x08' then ['\\', 'b']
  else if c = '\x09' then ['\\', 't']
  else if c = '\x0a' then ['\\', 'n']
  else if c = '\x0c' then ['\\', 'f']
  else if c = '\x0d' then ['\\', 'r']
  else if c.toNat < 32 then
    ['\\', 'u', '0', '0', hexDigit (c.toNat / 16), hexDigit (c.toNat % 16)]
  else [c]

/-- Escape a character list for a JSON string. -/
def jsonEscapeChars : List Char → List Char
  | [] => []
  | c :: rest => jsonEscapeChar c ++ jsonEscapeChars rest

/-- Serialize a JSON string. -/
def serializeString (s : String) : String :=
  "\"" ++ String.mk (jsonEscapeChars s.data) ++ "\""

/-- Serialize a JSON number: integers in decimal, finite doubles by their
decimal text. -/
def serializeNumber : JsonNumber → String
  | .ofInt i => toString i
  | .ofFloat v => v.text

/-- Serialize a JSON value. -/
def serializeValue : JsonValue → String
  | .str s => serializeString s
  | .num n => serializeNumber n
  | .bool b => if b then "true" else "false"

/-- Serialize the members of a JSON object, comma separated. -/
def serializeMembers : JsonObject → String
  | [] => ""
  | [p] => serializeString p.1 ++ ":" ++ serializeValue p.2
  | p :: rest => serializeString p.1 ++ ":" ++ serializeValue p.2 ++ "," ++ serializeMembers rest

/-- Serialize a JSON object. -/
def serializeObject (obj : JsonObject) : String :=
  "\x7b" ++ serializeMembers obj ++ "\x7d"

/-- Serialize the elements of a JSON array, comma separated. -/
def serializeElems : List JsonObject → String
  | [] => ""
  | [o] => serializeObject o
  | o :: rest => serializeObject o ++ "," ++ serializeElems rest

/-- Serialize a JSON array of objects, as serde_json::to_writer renders the
buffered vector in its single write. -/
def serializeArray (objs : List JsonObject) : String :=
  "[" ++ serializeElems objs ++ "]"

/-- Model of display_parquet_data_json after the reader is built: truncate
the row iterator to num_records, buffer every projected row, and only then
serialize the whole vector to standard output in one write; on any failure
nothing has been written. -/
def display_parquet_data_json (cols : List ColumnDescr) (records : List RowResult)
    (num_records : Option Nat) : String × Except CmdError Unit :=
  match jsonCollectRows cols (records.take (num_records.getD u64Max)) with
  | Except.error e => ("", Except.error e)
  | Except.ok objs => (serializeArray objs, Except.ok ())

/-! Schema path (display_parquet_schema). -/

/-- Rows of the schema table: the fixed header row first, then one
three-cell row per column descriptor in declared order, the logical-type
cell empty when the annotation is absent. -/
def display_parquet_schema (cols : List ColumnDescr) : List (List String) :=
  ["Column name", "Physical type", "Logical type"] ::
    cols.map (fun col => [col.name, col.physical_type, col.logical_type.getD ""])

/-- Modelled from the spec: the aligned text rendering of a table is done by
the external prettytable crate, whose exact box drawing the spec does not
pin down; only the row and cell structure of the table is specified, so a
simple cell-and-line joining stands in for the rendering. -/
def renderTable (rows : List (List String)) : String :=
  strJoin (rows.map (fun r => strJoin (r.intersperse " | ") ++ "\n"))

/-! Command dispatcher (cli and main). -/

/-- Output format accepted by the format flag. -/
inductive Format where
  | csv : Format
  | json : Format
deriving DecidableEq

/-- Parsed subcommand: cat takes a file and a format, head additionally the
n_rows flag (None when the flag was not given on the command line), schema
only a file. -/
inductive Subcommand where
  | cat : String → Format → Subcommand
  | head : String → Format → Option Nat → Subcommand
  | schema : String → Subcommand
deriving DecidableEq

/-- Abstract Row Source: opening and parsing the file either fails (covering
File::open and SerializedFileReader::new errors) or yields the schema's
column descriptors and the row iterator's outcomes. -/
structure RowSource where
  openResult : Except String (List ColumnDescr × List RowResult)

/-- Model of display_parquet_data: open the file, then dispatch on the
format; csv-path errors are I/O or parquet errors, the json path can also
panic. -/
def display_parquet_data (rs : RowSource) (format : Format)
    (num_records : Option Nat) : String × Except CmdError Unit :=
  match rs.openResult with
  | Except.error e => ("", Except.error (CmdError.ioError e))
  | Except.ok (cols, records) =>
      match format with
      | Format.csv =>
          let out := display_parquet_data_csv cols records num_records
          (out.1, out.2.mapError CmdError.ioError)
      | Format.json => display_parquet_data_json cols records num_records

/-- Result of one process run: what reached standard output and standard
error, and the process exit status. -/
structure ProcResult where
  stdout : String
  stderr : String
  exitCode : Nat
deriving DecidableEq

/-- Stderr text a panic aborts with. -/
def panicText : String :=
  "called Option::unwrap() on a None value\n"

/-- Wrap a display outcome the way a subcommand arm of main does: a
propagated error is caught there, printed to standard error behind the given
descriptive text, and the function returns normally (exit status 0, the same
as on success); a panic aborts the process with exit status 101. -/
def reportErrors (errText : String) (out : String × Except CmdError Unit) : ProcResult :=
  match out.2 with
  | Except.ok _ => ⟨out.1, "", 0⟩
  | Except.error (CmdError.ioError e) => ⟨out.1, errText ++ e ++ "\n", 0⟩
  | Except.error CmdError.panic => ⟨out.1, panicText, 101⟩

/-- Model of main after clap has parsed the arguments: dispatch on the
subcommand; head's row count defaults to 10 (clap's default_value) and is
always passed as Some to display_parquet_data. -/
def main (cmd : Subcommand) (rs : RowSource) : ProcResult :=
  match cmd with
  | Subcommand.cat _ format =>
      reportErrors "Error displaying file: " (display_parquet_data rs format none)
  | Subcommand.head _ format n =>
      reportErrors "Error displaying file: "
        (display_parquet_data rs format (some (n.getD 10)))
  | Subcommand.schema _ =>
      match rs.openResult with
      | Except.error e => ⟨"", "Error displaying schema: " ++ e ++ "\n", 0⟩
      | Except.ok (cols, _) => ⟨renderTable (display_parquet_schema cols), "", 0⟩

/-! Derived notions the specification speaks about. -/

/-- Number of lines of an output text, counted as newline characters (every
emitted CSV record ends in one). -/
def countNlChars : List Char → Nat
  | [] => 0
  | c :: rest => (if c = '\n' then 1 else 0) + countNlChars rest

/-- Line count of a string. -/
def countNl (s : String) : Nat := countNlChars s.data

/-- Whether a field value is a non-finite float or double. -/
def fieldNonFinite : Field → Bool
  | .Float v => !v.isFinite
  | .Double v => !v.isFinite
  | _ => false

/-- Last field paired with a column of the given name, scanning a
column-field pairing; this is the entry whose value survives the repeated
map insertions. -/
def lastFieldNamed (k : String) : List (ColumnDescr × Field) → Option Field
  | [] => none
  | (c, f) :: rest =>
      match lastFieldNamed k rest with
      | some f2 => some f2
      | none => if c.name == k then some f else none

/-- Association lookup on a JSON object (first entry wins; keys are unique
in every object the code builds). -/
def lookupA (k : String) (m : JsonObject) : Option JsonValue :=
  (m.find? (fun p => p.1 == k)).map Prod.snd

/-- Key sequence of a JSON object. -/
def keysOf (m : JsonObject) : List String := m.map Prod.fst

/-- Row loop restated on the column-field pairing it walks; proved equal to
jsonRowLoop below and used to reason about the object it builds. -/
def jsonRowZip : List (ColumnDescr × Field) → JsonObject → Except CmdError JsonObject
  | [], obj => Except.ok obj
  | (c, f) :: rest, obj =>
      match jsonOfField f with
      | none => Except.error CmdError.panic
      | some v => jsonRowZip rest (mapInsert obj c.name v)

/-- Descriptive text each subcommand arm of main prints before a caught
error. -/
def errTextOf : Subcommand → String
  | Subcommand.schema _ => "Error displaying schema: "
  | _ => "Error displaying file: "

/-! Helper lemmas about strings and line counting. -/

lemma strData_append (a b : String) : (a ++ b).data = a.data ++ b.data := by
  cases a; cases b; rfl

lemma strOfData (a b : String) (h : a.data = b.data) : a = b := by
  cases a; cases b; exact congrArg String.mk h

lemma str_append_empty (a : String) : a ++ "" = a := by
  apply strOfData
  rw [strData_append]
  simp [String.data]

lemma countNlChars_append (l1 l2 : List Char) :
    countNlChars (l1 ++ l2) = countNlChars l1 + countNlChars l2 := by
  induction l1 with
  | nil => simp [countNlChars]
  | cons c rest ih => simp [countNlChars, ih]; omega

lemma countNl_append (a b : String) : countNl (a ++ b) = countNl a + countNl b := by
  unfold countNl
  rw [strData_append, countNlChars_append]

lemma countNlChars_doubleQuotes (l : List Char) :
    countNlChars (doubleQuotes l) = countNlChars l := by
  induction l with
  | nil => rfl
  | cons c rest ih =>
      by_cases h : c = '"'
      · subst h
        simp [doubleQuotes, countNlChars, ih]
      · simp [doubleQuotes, h, countNlChars, ih]

lemma countNl_escapeCsvField (s : String) : countNl (escapeCsvField s) = countNl s := by
  unfold escapeCsvField
  by_cases h : needsQuoting s.data
  · simp only [h, if_true]
    rw [countNl_append, countNl_append]
    unfold countNl
    rw [countNlChars_doubleQuotes]
    simp [String.data, countNlChars]
  · simp [h]

lemma countNl_writeRecord (fs : List String) :
    countNl (writeRecord fs) = (fs.map countNl).sum + 1 := by
  induction fs with
  | nil => simp [writeRecord, countNl, countNlChars, String.data]
  | cons f rest ih =>
      cases rest with
      | nil =>
          simp only [writeRecord, List.map, List.sum_cons, List.sum_nil]
          rw [countNl_append, countNl_escapeCsvField]
          simp [countNl, countNlChars, String.data]
      | cons g gs =>
          simp only [writeRecord] at ih ⊢
          rw [countNl_append, countNl_append, countNl_escapeCsvField, ih]
          simp only [List.map, List.sum_cons]
          have : countNl "," = 0 := by simp [countNl, countNlChars, String.data]
          omega

lemma countNl_writeRecord_of_clean (fs : List String) (h : ∀ s ∈ fs, countNl s = 0) :
    countNl (writeRecord fs) = 1 := by
  rw [countNl_writeRecord]
  have : (fs.map countNl).sum = 0 := by
    apply List.sum_eq_zero
    intro x hx
    obtain ⟨s, hs, rfl⟩ := List.mem_map.mp hx
    exact h s hs
  omega

lemma countNl_strJoin (l : List String) :
    countNl (strJoin l) = (l.map countNl).sum := by
  induction l with
  | nil => simp [strJoin, countNl, countNlChars, String.data]
  | cons s rest ih => simp [strJoin, countNl_append, ih]

/-! Helper lemmas about the csv loop. -/

lemma csvWriteRows_append_ok (n : Nat) (rows : List (List Field))
    (h : ∀ row ∈ rows, row.length = n) (tail : List RowResult) :
    csvWriteRows n (rows.map Except.ok ++ tail) =
      (strJoin (rows.map (fun row => writeRecord (row.map csvField))) ++ (csvWriteRows n tail).1,
        (csvWriteRows n tail).2) := by
  induction rows with
  | nil =>
      simp only [List.map_nil, List.nil_append, strJoin]
      apply Prod.ext
      · apply (strOfData _ _ _).symm
        rw [strData_append]
        simp [String.data]
      · rfl
  | cons row rest ih =>
      have hrow : row.length = n := h row (List.mem_cons_self row rest)
      have hrest : ∀ r ∈ rest, r.length = n := fun r hr => h r (List.mem_cons_of_mem row hr)
      simp only [List.map_cons, List.cons_append, csvWriteRows, hrow, if_true, strJoin,
        List.append_eq]
      rw [ih hrest]
      apply Prod.ext
      · apply strOfData
        rw [strData_append, strData_append, strData_append, strData_append,
          List.append_assoc]
      · rfl

lemma csvWriteRows_all_ok (n : Nat) (rows : List (List Field))
    (h : ∀ row ∈ rows, row.length = n) :
    csvWriteRows n (rows.map Except.ok) =
      (strJoin (rows.map (fun row => writeRecord (row.map csvField))), Except.ok ()) := by
  have := csvWriteRows_append_ok n rows h []
  rw [List.append_nil] at this
  rw [this]
  simp only [csvWriteRows]
  rw [str_append_empty]

lemma display_csv_ok_rows (cols : List ColumnDescr) (rows : List (List Field))
    (num : Option Nat) (hlen : ∀ row ∈ rows, row.length = cols.length) :
    display_parquet_data_csv cols (rows.map Except.ok) num
      = (writeRecord (cols.map ColumnDescr.name)
          ++ strJoin ((rows.take (num.getD u64Max)).map (fun row => writeRecord (row.map csvField))),
         Except.ok ()) := by
  simp only [display_parquet_data_csv, ← List.map_take]
  rw [csvWriteRows_all_ok]
  intro row hr
  rw [List.length_map]
  exact hlen row (List.take_subset _ _ hr)

lemma strJoin_records_countNl (rows : List (List Field))
    (h : ∀ row ∈ rows, ∀ f ∈ row, countNl (csvField f) = 0) :
    countNl (strJoin (rows.map (fun row => writeRecord (row.map csvField)))) = rows.length := by
  induction rows with
  | nil => simp [strJoin, countNl, countNlChars, String.data]
  | cons row rest ih =>
      simp only [List.map_cons, strJoin]
      rw [countNl_append, countNl_writeRecord_of_clean]
      · rw [ih (fun r hr f hf => h r (List.mem_cons_of_mem _ hr) f hf)]
        simp [Nat.add_comm]
      · intro s hs
        obtain ⟨f, hf, rfl⟩ := List.mem_map.mp hs
        exact h row (List.mem_cons_self _ _) f hf

/-- C1 (amended): for a file with N columns and M rows that are all readable,
CSV emission writes first the header record of the N column names in
descriptor order, then one record per row in iteration order, and succeeds;
the header record carries exactly N fields, and the output has exactly M+1
lines provided no projected field text (and no column name) contains a
newline character. -/
theorem c1_csv_record_structure (cols : List ColumnDescr) (rows : List (List Field))
    (hM : rows.length ≤ u64Max) (hlen : ∀ row ∈ rows, row.length = cols.length) :
    display_parquet_data_csv cols (rows.map Except.ok) none
        = (writeRecord (cols.map ColumnDescr.name)
            ++ strJoin (rows.map (fun row => writeRecord (row.map csvField))), Except.ok ())
      ∧ (cols.map ColumnDescr.name).length = cols.length
      ∧ ((∀ s ∈ cols.map ColumnDescr.name, countNl s = 0) →
          (∀ row ∈ rows, ∀ f ∈ row, countNl (csvField f) = 0) →
          countNl (display_parquet_data_csv cols (rows.map Except.ok) none).1
            = rows.length + 1) := by
  have htake : rows.take ((none : Option Nat).getD u64Max) = rows :=
    List.take_of_length_le hM
  have hmain := display_csv_ok_rows cols rows none hlen
  rw [htake] at hmain
  refine ⟨hmain, List.length_map _ _, fun hhdr hfld => ?_⟩
  rw [hmain]
  simp only
  rw [countNl_append, countNl_writeRecord_of_clean _ hhdr, strJoin_records_countNl _ hfld]
  exact Nat.add_comm 1 rows.length

/-- C1 counterexample: a one-column, one-row file whose single string value
contains a newline makes CSV emission produce three lines, not M+1 = 2: the
csv writer quotes the field and the embedded newline stays in the output. -/
theorem c1_lines_counterexample :
    countNl (display_parquet_data_csv [⟨"a", "BYTE_ARRAY", some "String"⟩]
        [Except.ok [Field.Str "x\ny"]] none).1 = 3
      ∧ (3 : Nat) ≠ 1 + 1 := by
  constructor
  · decide
  · decide

/-- C1 witness at a concrete one-column, one-row input. -/
theorem c1_csv_record_structure_witness :
    display_parquet_data_csv [⟨"a", "INT32", none⟩] ([[Field.Int 7]].map Except.ok) none
        = (writeRecord (([⟨"a", "INT32", none⟩] : List ColumnDescr).map ColumnDescr.name)
            ++ strJoin ([[Field.Int 7]].map (fun row => writeRecord (row.map csvField))),
           Except.ok ())
      ∧ countNl (display_parquet_data_csv [⟨"a", "INT32", none⟩]
          ([[Field.Int 7]].map Except.ok) none).1 = 2 :=
  ⟨(c1_csv_record_structure [⟨"a", "INT32", none⟩] [[Field.Int 7]]
      (by decide) (by decide)).1,
   (c1_csv_record_structure [⟨"a", "INT32", none⟩] [[Field.Int 7]]
      (by decide) (by decide)).2.2 (by decide) (by decide)⟩

/-- C2: head with limit K emits exactly min(K, M) data rows (all M when
K > M, none when K = 0, in which case CSV still prints the header and JSON
prints the empty array); the truncated iterator never looks past the first K
row outcomes, and a missing n_rows flag defaults to 10. -/
theorem c2_head_limit :
    (∀ (cols : List ColumnDescr) (records : List RowResult) (k : Nat),
        display_parquet_data_csv cols records (some k)
          = display_parquet_data_csv cols (records.take k) (some k))
    ∧ (∀ (cols : List ColumnDescr) (records : List RowResult) (k : Nat),
        display_parquet_data_json cols records (some k)
          = display_parquet_data_json cols (records.take k) (some k))
    ∧ (∀ (cols : List ColumnDescr) (rows : List (List Field)) (k : Nat),
        (∀ row ∈ rows, row.length = cols.length) →
        display_parquet_data_csv cols (rows.map Except.ok) (some k)
            = (writeRecord (cols.map ColumnDescr.name)
                ++ strJoin ((rows.take k).map (fun row => writeRecord (row.map csvField))),
               Except.ok ())
          ∧ (rows.take k).length = min k rows.length)
    ∧ (∀ (cols : List ColumnDescr) (records : List RowResult) (k : Nat)
        (objs : List JsonObject),
        jsonCollectRows cols (records.take k) = Except.ok objs →
        objs.length = min k records.length)
    ∧ (∀ (cols : List ColumnDescr) (records : List RowResult),
        display_parquet_data_csv cols records (some 0)
          = (writeRecord (cols.map ColumnDescr.name), Except.ok ()))
    ∧ (∀ (cols : List ColumnDescr) (records : List RowResult),
        display_parquet_data_json cols records (some 0) = ("[]", Except.ok ()))
    ∧ (∀ (file : String) (fmt : Format) (rs : RowSource),
        main (Subcommand.head file fmt none) rs
          = main (Subcommand.head file fmt (some 10)) rs) := by
  have hcollect_len : ∀ (cols : List ColumnDescr) (l : List RowResult)
      (objs : List JsonObject), jsonCollectRows cols l = Except.ok objs →
      objs.length = l.length := by
    intro cols l
    induction l with
    | nil => intro objs h; cases h; rfl
    | cons r rest ih =>
        intro objs h
        cases r with
        | error e => exact absurd h (by simp [jsonCollectRows])
        | ok row =>
            simp only [jsonCollectRows] at h
            cases hobj : jsonRowObject cols row with
            | error e => rw [hobj] at h; cases h
            | ok obj =>
                rw [hobj] at h
                cases hrest : jsonCollectRows cols rest with
                | error e => rw [hrest] at h; cases h
                | ok objs2 =>
                    rw [hrest] at h
                    cases h
                    simp [ih objs2 hrest]
  refine ⟨?_, ?_, ?_, ?_, ?_, ?_, ?_⟩
  · intro cols records k
    simp [display_parquet_data_csv, List.take_take]
  · intro cols records k
    simp [display_parquet_data_json, List.take_take]
  · intro cols rows k hlen
    exact ⟨display_csv_ok_rows cols rows (some k) hlen, by simp [List.length_take]⟩
  · intro cols records k objs h
    rw [hcollect_len cols _ objs h, List.length_take]
  · intro cols records
    simp only [display_parquet_data_csv, Option.getD, List.take_zero, csvWriteRows]
    apply Prod.ext
    · exact str_append_empty _
    · rfl
  · intro cols records
    simp [display_parquet_data_json, jsonCollectRows, serializeArray, serializeElems]
  · intro file fmt rs
    rfl

/-- C2 witness: head with limit 2 over a three-row file emits exactly two
records in CSV form, and the JSON buffer holds exactly min(2, 3) objects. -/
theorem c2_head_limit_witness :
    (display_parquet_data_csv [⟨"a", "INT32", none⟩]
         ([[Field.Int 1], [Field.Int 2], [Field.Int 3]].map Except.ok) (some 2)
       = (writeRecord (([⟨"a", "INT32", none⟩] : List ColumnDescr).map ColumnDescr.name)
           ++ strJoin (([[Field.Int 1], [Field.Int 2], [Field.Int 3]].take 2).map
               (fun row => writeRecord (row.map csvField))), Except.ok ())
      ∧ ([[Field.Int 1], [Field.Int 2], [Field.Int 3]].take 2).length = min 2 3)
    ∧ ([("a", JsonValue.num (JsonNumber.ofInt 1))] ::
        [[("a", JsonValue.num (JsonNumber.ofInt 2))]]).length = min 2 3 :=
  ⟨c2_head_limit.2.2.1 [⟨"a", "INT32", none⟩]
      [[Field.Int 1], [Field.Int 2], [Field.Int 3]] 2 (by decide),
   c2_head_limit.2.2.2.1 [⟨"a", "INT32", none⟩]
      ([[Field.Int 1], [Field.Int 2], [Field.Int 3]].map Except.ok) 2
      [[("a", JsonValue.num (JsonNumber.ofInt 1))],
       [("a", JsonValue.num (JsonNumber.ofInt 2))]] (by decide)⟩

/-- C9: JSON emission is atomic with respect to row errors — whenever it
fails, nothing has reached standard output; CSV emission is not — the header
goes out before any row is read and each record as it is iterated, so a
failure at row i leaves the header and the first i-1 records emitted. -/
theorem c9_atomicity :
    (∀ (cols : List ColumnDescr) (records : List RowResult) (num : Option Nat)
        (e : CmdError),
        (display_parquet_data_json cols records num).2 = Except.error e →
        (display_parquet_data_json cols records num).1 = "")
    ∧ (∀ (cols : List ColumnDescr) (rows : List (List Field)) (e : String)
        (rest : List RowResult),
        (∀ row ∈ rows, row.length = cols.length) → rows.length < u64Max →
        display_parquet_data_csv cols (rows.map Except.ok ++ Except.error e :: rest) none
          = (writeRecord (cols.map ColumnDescr.name)
              ++ strJoin (rows.map (fun row => writeRecord (row.map csvField))),
             Except.error e)) := by
  constructor
  · intro cols records num e h
    unfold display_parquet_data_json at h ⊢
    cases hc : jsonCollectRows cols (records.take (num.getD u64Max)) with
    | error e2 => rfl
    | ok objs => rw [hc] at h; cases h
  · intro cols rows e rest hlen hM
    have hlenmap : (rows.map (Except.ok : List Field → RowResult)).length ≤ u64Max := by
      rw [List.length_map]; omega
    obtain ⟨m, hm⟩ :
        ∃ m, u64Max - (rows.map (Except.ok : List Field → RowResult)).length = m + 1 :=
      ⟨u64Max - rows.length - 1, by rw [List.length_map]; omega⟩
    simp only [display_parquet_data_csv, Option.getD]
    rw [List.take_append_eq_append_take, List.take_of_length_le hlenmap, hm,
      List.take_succ_cons]
    rw [csvWriteRows_append_ok _ _ (fun row hr => by
      rw [List.length_map]; exact hlen row hr)]
    simp only [csvWriteRows]
    apply Prod.ext
    · apply strOfData
      rw [strData_append, strData_append, strData_append,
        show ("" : String).data = [] from rfl, List.append_nil]
    · rfl

/-- C9 witness: a row error after one good row leaves the header and that
one record emitted in CSV form. -/
theorem c9_atomicity_witness :
    display_parquet_data_csv [⟨"a", "INT32", none⟩]
        ([[Field.Int 1]].map Except.ok ++ Except.error "boom" :: []) none
      = (writeRecord (([⟨"a", "INT32", none⟩] : List ColumnDescr).map ColumnDescr.name)
          ++ strJoin ([[Field.Int 1]].map (fun row => writeRecord (row.map csvField))),
         Except.error "boom") :=
  c9_atomicity.2 [⟨"a", "INT32", none⟩] [[Field.Int 1]] "boom" [] (by decide) (by decide)

/-! Helper lemmas about the json object construction. -/

lemma keysOf_cons (p : String × JsonValue) (m : JsonObject) :
    keysOf (p :: m) = p.1 :: keysOf m := rfl

lemma mapInsert_of_not_mem (m : JsonObject) (k : String) (v : JsonValue)
    (h : k ∉ keysOf m) : mapInsert m k v = m ++ [(k, v)] := by
  induction m with
  | nil => rfl
  | cons p rest ih =>
      have hk : k ≠ p.1 := by
        intro he
        exact h (by rw [keysOf_cons]; exact he ▸ List.mem_cons_self _ _)
      have hb : (p.1 == k) = false := by
        rw [beq_eq_false_iff_ne]
        exact fun he => hk he.symm
      simp only [mapInsert, hb, Bool.false_eq_true, if_false, List.cons_append]
      rw [ih (fun hm => h (by rw [keysOf_cons]; exact List.mem_cons_of_mem _ hm))]

lemma mem_keysOf_mapInsert (m : JsonObject) (k : String) (v : JsonValue) (k2 : String) :
    k2 ∈ keysOf (mapInsert m k v) ↔ k2 ∈ keysOf m ∨ k2 = k := by
  induction m with
  | nil => simp [mapInsert, keysOf]
  | cons p rest ih =>
      by_cases hb : p.1 == k
      · simp only [mapInsert, hb, if_true, keysOf_cons]
        have : p.1 = k := by exact beq_iff_eq.mp hb
        subst this
        simp [List.mem_cons]
        tauto
      · simp only [mapInsert, hb, Bool.false_eq_true, if_false, keysOf_cons]
        simp only [List.mem_cons, ih]
        tauto

lemma nodup_keysOf_mapInsert (m : JsonObject) (k : String) (v : JsonValue)
    (h : (keysOf m).Nodup) : (keysOf (mapInsert m k v)).Nodup := by
  induction m with
  | nil => simp [mapInsert, keysOf]
  | cons p rest ih =>
      rw [keysOf_cons] at h
      obtain ⟨hp, hrest⟩ := List.nodup_cons.mp h
      by_cases hb : p.1 == k
      · have : p.1 = k := beq_iff_eq.mp hb
        subst this
        simp only [mapInsert, beq_self_eq_true, if_true, keysOf_cons]
        exact List.nodup_cons.mpr ⟨hp, hrest⟩
      · simp only [mapInsert, hb, Bool.false_eq_true, if_false, keysOf_cons]
        refine List.nodup_cons.mpr ⟨?_, ih hrest⟩
        intro hmem
        rcases (mem_keysOf_mapInsert rest k v p.1).mp hmem with hin | heq
        · exact hp hin
        · exact hb (beq_iff_eq.mpr heq)

lemma lookupA_mapInsert_self (m : JsonObject) (k : String) (v : JsonValue) :
    lookupA k (mapInsert m k v) = some v := by
  induction m with
  | nil => simp [mapInsert, lookupA, List.find?]
  | cons p rest ih =>
      by_cases hb : p.1 == k
      · simp [mapInsert, hb, lookupA, List.find?]
      · simp only [mapInsert, hb, Bool.false_eq_true, if_false]
        simp only [lookupA, List.find?, hb]
        exact ih

lemma lookupA_mapInsert_ne (m : JsonObject) (k k2 : String) (v : JsonValue)
    (h : k2 ≠ k) : lookupA k2 (mapInsert m k v) = lookupA k2 m := by
  have hb2 : (k == k2) = false := by
    rw [beq_eq_false_iff_ne]
    exact fun he => h he.symm
  induction m with
  | nil => simp [mapInsert, lookupA, List.find?, hb2]
  | cons p rest ih =>
      by_cases hb : p.1 == k
      · have hpk : p.1 = k := beq_iff_eq.mp hb
        simp [mapInsert, hb, lookupA, List.find?, hb2, hpk]
      · simp only [mapInsert, hb, Bool.false_eq_true, if_false]
        by_cases hb3 : p.1 == k2
        · simp only [lookupA, List.find?, hb3]
        · simp only [lookupA, List.find?, hb3] at ih ⊢
          exact ih

lemma get?_eq_of_drop_cons {α : Type _} (l : List α) (i : Nat) (c : α) (t : List α)
    (h : l.drop i = c :: t) : l.get? i = some c := by
  induction i generalizing l with
  | zero => rw [List.drop_zero] at h; subst h; rfl
  | succ i ih =>
      cases l with
      | nil => cases h
      | cons a l2 => exact ih l2 h

lemma drop_succ_of_drop_cons {α : Type _} (l : List α) (i : Nat) (c : α) (t : List α)
    (h : l.drop i = c :: t) : l.drop (i + 1) = t := by
  rw [← List.drop_drop 1 i l, h]
  rfl

lemma jsonRowLoop_eq_zip (cols : List ColumnDescr) :
    ∀ (row : List Field) (i : Nat) (cs : List ColumnDescr) (obj : JsonObject),
    cols.drop i = cs → row.length ≤ cs.length →
    jsonRowLoop cols i row obj = jsonRowZip (cs.zip row) obj := by
  intro row
  induction row with
  | nil =>
      intro i cs obj _ _
      simp [jsonRowLoop, jsonRowZip, List.zip_nil_right]
  | cons f rest ih =>
      intro i cs obj hdrop hle
      cases cs with
      | nil => simp at hle
      | cons c t =>
          have hget := get?_eq_of_drop_cons cols i c t hdrop
          have hdrop2 := drop_succ_of_drop_cons cols i c t hdrop
          have hle2 : rest.length ≤ t.length := by
            simpa [Nat.succ_le_succ_iff] using hle
          simp only [jsonRowLoop, hget, List.zip_cons_cons, jsonRowZip]
          cases hv : jsonOfField f with
          | none => rfl
          | some v => exact ih (i + 1) t (mapInsert obj c.name v) hdrop2 hle2

lemma jsonRowObject_eq_zip (cols : List ColumnDescr) (row : List Field)
    (h : row.length ≤ cols.length) :
    jsonRowObject cols row = jsonRowZip (cols.zip row) [] :=
  jsonRowLoop_eq_zip cols row 0 cols [] (List.drop_zero cols) h

lemma zip_names (cols : List ColumnDescr) (row : List Field)
    (h : cols.length ≤ row.length) :
    (cols.zip row).map (fun p => p.1.name) = cols.map ColumnDescr.name := by
  have h1 : (cols.zip row).map (fun p => p.1.name)
      = ((cols.zip row).map Prod.fst).map ColumnDescr.name := by
    rw [List.map_map]
    rfl
  rw [h1, List.map_fst_zip cols row h]

lemma jsonRowZip_keys_nodup :
    ∀ (ps : List (ColumnDescr × Field)) (obj obj2 : JsonObject),
    jsonRowZip ps obj = Except.ok obj2 → (keysOf obj).Nodup → (keysOf obj2).Nodup := by
  intro ps
  induction ps with
  | nil =>
      intro obj obj2 h hn
      cases h
      exact hn
  | cons p rest ih =>
      intro obj obj2 h hn
      obtain ⟨c, f⟩ := p
      simp only [jsonRowZip] at h
      cases hv : jsonOfField f with
      | none => rw [hv] at h; cases h
      | some v =>
          rw [hv] at h
          exact ih (mapInsert obj c.name v) obj2 h (nodup_keysOf_mapInsert obj c.name v hn)

lemma jsonRowZip_mem_keys :
    ∀ (ps : List (ColumnDescr × Field)) (obj obj2 : JsonObject),
    jsonRowZip ps obj = Except.ok obj2 →
    ∀ k, k ∈ keysOf obj2 ↔ k ∈ keysOf obj ∨ k ∈ ps.map (fun p => p.1.name) := by
  intro ps
  induction ps with
  | nil =>
      intro obj obj2 h k
      cases h
      simp
  | cons p rest ih =>
      intro obj obj2 h k
      obtain ⟨c, f⟩ := p
      simp only [jsonRowZip] at h
      cases hv : jsonOfField f with
      | none => rw [hv] at h; cases h
      | some v =>
          rw [hv] at h
          rw [ih (mapInsert obj c.name v) obj2 h k]
          simp only [mem_keysOf_mapInsert, List.map_cons, List.mem_cons]
          tauto

lemma jsonRowZip_lookupA :
    ∀ (ps : List (ColumnDescr × Field)) (obj obj2 : JsonObject),
    jsonRowZip ps obj = Except.ok obj2 →
    ∀ k, lookupA k obj2 = (match lastFieldNamed k ps with
      | some f => jsonOfField f
      | none => lookupA k obj) := by
  intro ps
  induction ps with
  | nil =>
      intro obj obj2 h k
      cases h
      rfl
  | cons p rest ih =>
      intro obj obj2 h k
      obtain ⟨c, f⟩ := p
      simp only [jsonRowZip] at h
      cases hv : jsonOfField f with
      | none => rw [hv] at h; cases h
      | some v =>
          rw [hv] at h
          rw [ih (mapInsert obj c.name v) obj2 h k]
          simp only [lastFieldNamed]
          cases hlast : lastFieldNamed k rest with
          | some f2 => rfl
          | none =>
              by_cases hb : c.name == k
              · have he : c.name = k := beq_iff_eq.mp hb
                simp only [hb, if_true]
                rw [he, lookupA_mapInsert_self, hv]
              · have hne : k ≠ c.name := by
                  intro he
                  exact hb (beq_iff_eq.mpr he.symm)
                simp only [hb, Bool.false_eq_true, if_false]
                rw [lookupA_mapInsert_ne obj c.name k v hne]

lemma jsonRowZip_keys_of_nodup :
    ∀ (ps : List (ColumnDescr × Field)) (obj obj2 : JsonObject),
    jsonRowZip ps obj = Except.ok obj2 →
    (keysOf obj ++ ps.map (fun p => p.1.name)).Nodup →
    keysOf obj2 = keysOf obj ++ ps.map (fun p => p.1.name) := by
  intro ps
  induction ps with
  | nil =>
      intro obj obj2 h _
      cases h
      simp
  | cons p rest ih =>
      intro obj obj2 h hnd
      obtain ⟨c, f⟩ := p
      simp only [jsonRowZip] at h
      cases hv : jsonOfField f with
      | none => rw [hv] at h; cases h
      | some v =>
          rw [hv] at h
          have hnotmem : c.name ∉ keysOf obj := by
            intro hmem
            obtain ⟨_, _, hdisj⟩ := List.nodup_append.mp hnd
            exact hdisj hmem (by simp)
          have hins := mapInsert_of_not_mem obj c.name v hnotmem
          have hkeys : keysOf (mapInsert obj c.name v) = keysOf obj ++ [c.name] := by
            rw [hins]
            simp [keysOf]
          have hnd2 : (keysOf (mapInsert obj c.name v)
              ++ rest.map (fun p => p.1.name)).Nodup := by
            rw [hkeys, List.append_assoc, List.singleton_append]
            simpa using hnd
          rw [ih (mapInsert obj c.name v) obj2 h hnd2, hkeys,
            List.append_assoc, List.singleton_append]
          rfl

lemma jsonRowLoop_ok_conv (cols : List ColumnDescr) :
    ∀ (row : List Field) (i : Nat) (obj obj2 : JsonObject),
    jsonRowLoop cols i row obj = Except.ok obj2 →
    ∀ f ∈ row, jsonOfField f ≠ none := by
  intro row
  induction row with
  | nil =>
      intro i obj obj2 _ f hf
      cases hf
  | cons g rest ih =>
      intro i obj obj2 h f hf
      simp only [jsonRowLoop] at h
      cases hget : cols.get? i with
      | none => rw [hget] at h; cases h
      | some c =>
          rw [hget] at h
          cases hv : jsonOfField g with
          | none => rw [hv] at h; cases h
          | some v =>
              rw [hv] at h
              rcases List.mem_cons.mp hf with rfl | hmem
              · rw [hv]; exact fun hc => Option.noConfusion hc
              · exact ih (i + 1) (mapInsert obj c.name v) obj2 h f hmem

lemma fieldNonFinite_conv_none (f : Field) (h : fieldNonFinite f = true) :
    jsonOfField f = none := by
  cases f <;> simp_all [fieldNonFinite, jsonOfField, from_f64]

lemma jsonCollectRows_length (cols : List ColumnDescr) :
    ∀ (l : List RowResult) (objs : List JsonObject),
    jsonCollectRows cols l = Except.ok objs → objs.length = l.length := by
  intro l
  induction l with
  | nil => intro objs h; cases h; rfl
  | cons r rest ih =>
      intro objs h
      cases r with
      | error e => exact absurd h (by simp [jsonCollectRows])
      | ok row =>
          simp only [jsonCollectRows] at h
          cases hobj : jsonRowObject cols row with
          | error e => rw [hobj] at h; cases h
          | ok obj =>
              rw [hobj] at h
              cases hrest : jsonCollectRows cols rest with
              | error e => rw [hrest] at h; cases h
              | ok objs2 =>
                  rw [hrest] at h
                  cases h
                  simp [ih objs2 hrest]

lemma jsonCollectRows_ok_rows (cols : List ColumnDescr) :
    ∀ (l : List RowResult) (objs : List JsonObject),
    jsonCollectRows cols l = Except.ok objs →
    ∀ row : List Field, Except.ok row ∈ l → ∃ obj, jsonRowObject cols row = Except.ok obj := by
  intro l
  induction l with
  | nil =>
      intro objs _ row hmem
      cases hmem
  | cons r rest ih =>
      intro objs h row hmem
      cases r with
      | error e => exact absurd h (by simp [jsonCollectRows])
      | ok row0 =>
          simp only [jsonCollectRows] at h
          cases hobj : jsonRowObject cols row0 with
          | error e => rw [hobj] at h; cases h
          | ok obj =>
              rw [hobj] at h
              cases hrest : jsonCollectRows cols rest with
              | error e => rw [hrest] at h; cases h
              | ok objs2 =>
                  rcases List.mem_cons.mp hmem with heq | hmem2
                  · have : row0 = row := by
                      injection heq.symm
                    exact ⟨obj, this ▸ hobj⟩
                  · exact ih objs2 hrest row hmem2

lemma jsonCollectRows_ok_objs (cols : List ColumnDescr) :
    ∀ (l : List RowResult) (objs : List JsonObject),
    jsonCollectRows cols l = Except.ok objs →
    ∀ obj ∈ objs, ∃ row : List Field,
      Except.ok row ∈ l ∧ jsonRowObject cols row = Except.ok obj := by
  intro l
  induction l with
  | nil =>
      intro objs h obj hobj
      cases h
      cases hobj
  | cons r rest ih =>
      intro objs h obj hobj
      cases r with
      | error e => exact absurd h (by simp [jsonCollectRows])
      | ok row0 =>
          simp only [jsonCollectRows] at h
          cases hrow : jsonRowObject cols row0 with
          | error e => rw [hrow] at h; cases h
          | ok obj0 =>
              rw [hrow] at h
              cases hrest : jsonCollectRows cols rest with
              | error e => rw [hrest] at h; cases h
              | ok objs2 =>
                  rw [hrest] at h
                  cases h
                  rcases List.mem_cons.mp hobj with rfl | hmem
                  · exact ⟨row0, List.mem_cons_self _ _, hrow⟩
                  · obtain ⟨row, hr1, hr2⟩ := ih objs2 hrest obj hmem
                    exact ⟨row, List.mem_cons_of_mem _ hr1, hr2⟩

lemma jsonRowObject_keys (cols : List ColumnDescr) (row : List Field) (obj : JsonObject)
    (hlen : row.length = cols.length) (hnd : (cols.map ColumnDescr.name).Nodup)
    (hok : jsonRowObject cols row = Except.ok obj) :
    keysOf obj = cols.map ColumnDescr.name := by
  rw [jsonRowObject_eq_zip cols row (le_of_eq hlen)] at hok
  have hzip : (cols.zip row).map (fun p => p.1.name) = cols.map ColumnDescr.name :=
    zip_names cols row (le_of_eq hlen.symm)
  have h := jsonRowZip_keys_of_nodup (cols.zip row) [] obj hok
    (by rw [show keysOf [] = ([] : List String) from rfl, List.nil_append, hzip]; exact hnd)
  rw [h, hzip]
  rfl

/-- C3: the JSON projection maps each field value by tag: a string field to a
JSON string, a 32- or 64-bit integer field losslessly to a JSON number, a
finite 32- or 64-bit float field to a JSON number (and a non-finite one to
the failing conversion), a boolean field to a JSON boolean, and every other
tag to a JSON string holding the value's textual representation. -/
theorem c3_json_projection_by_tag :
    (∀ s, jsonOfField (Field.Str s) = some (JsonValue.str s))
    ∧ (∀ i, jsonOfField (Field.Int i) = some (JsonValue.num (JsonNumber.ofInt i)))
    ∧ (∀ i, jsonOfField (Field.Long i) = some (JsonValue.num (JsonNumber.ofInt i)))
    ∧ (∀ v : FloatVal, v.isFinite = true →
        jsonOfField (Field.Float v) = some (JsonValue.num (JsonNumber.ofFloat v)))
    ∧ (∀ v : FloatVal, v.isFinite = true →
        jsonOfField (Field.Double v) = some (JsonValue.num (JsonNumber.ofFloat v)))
    ∧ (∀ v : FloatVal, v.isFinite = false → jsonOfField (Field.Float v) = none)
    ∧ (∀ b, jsonOfField (Field.Bool b) = some (JsonValue.bool b))
    ∧ (∀ t, jsonOfField (Field.Other t) = some (JsonValue.str (fieldToString (Field.Other t))))
    ∧ (∀ i j : Int, JsonNumber.ofInt i = JsonNumber.ofInt j → i = j) := by
  refine ⟨fun s => rfl, fun i => rfl, fun i => rfl, ?_, ?_, ?_, fun b => rfl, fun t => rfl, ?_⟩
  · intro v hv
    simp [jsonOfField, from_f64, hv]
  · intro v hv
    simp [jsonOfField, from_f64, hv]
  · intro v hv
    simp [jsonOfField, from_f64, hv]
  · intro i j h
    injection h

/-- C3 witness at a concrete finite float field. -/
theorem c3_json_projection_witness :
    jsonOfField (Field.Float ⟨true, "1.5"⟩)
      = some (JsonValue.num (JsonNumber.ofFloat ⟨true, "1.5"⟩)) :=
  c3_json_projection_by_tag.2.2.2.1 ⟨true, "1.5"⟩ rfl

/-- C4: whenever any float or double field of a row the json path emits is
NaN or infinite, JSON emission fails (the conversion panics, a fatal error,
unless an earlier row error aborts first) and nothing is written to standard
output: no partial array appears. -/
theorem c4_nonfinite_float_fails (cols : List ColumnDescr) (records : List RowResult)
    (num : Option Nat)
    (h : ∃ row : List Field, Except.ok row ∈ records.take (num.getD u64Max)
        ∧ row.any fieldNonFinite = true) :
    (display_parquet_data_json cols records num).1 = ""
      ∧ ∃ e, (display_parquet_data_json cols records num).2 = Except.error e := by
  obtain ⟨row, hmem, hnf⟩ := h
  obtain ⟨f, hf, hnff⟩ := List.any_eq_true.mp hnf
  unfold display_parquet_data_json
  cases hc : jsonCollectRows cols (records.take (num.getD u64Max)) with
  | error e => exact ⟨rfl, e, rfl⟩
  | ok objs =>
      exfalso
      obtain ⟨obj, hobj⟩ := jsonCollectRows_ok_rows cols _ objs hc row hmem
      exact jsonRowLoop_ok_conv cols row 0 [] obj hobj f hf (fieldNonFinite_conv_none f hnff)

/-- C4 witness: a single NaN float field makes JSON emission fail with empty
output. -/
theorem c4_nonfinite_float_fails_witness :
    (display_parquet_data_json [⟨"x", "FLOAT", none⟩]
        [Except.ok [Field.Float ⟨false, "NaN"⟩]] none).1 = ""
      ∧ ∃ e, (display_parquet_data_json [⟨"x", "FLOAT", none⟩]
          [Except.ok [Field.Float ⟨false, "NaN"⟩]] none).2 = Except.error e :=
  c4_nonfinite_float_fails [⟨"x", "FLOAT", none⟩] [Except.ok [Field.Float ⟨false, "NaN"⟩]]
    none ⟨[Field.Float ⟨false, "NaN"⟩], by decide, by decide⟩

/-- C5 counterexample: with two columns that share the name a, the emitted
object of the single row has one key, not N = 2 — the later insertion under
the same name overwrites the earlier entry. -/
theorem c5_duplicate_keys_counterexample :
    jsonRowObject [⟨"a", "INT32", none⟩, ⟨"a", "INT32", none⟩] [Field.Int 1, Field.Int 2]
        = Except.ok [("a", JsonValue.num (JsonNumber.ofInt 2))]
      ∧ display_parquet_data_json [⟨"a", "INT32", none⟩, ⟨"a", "INT32", none⟩]
          [Except.ok [Field.Int 1, Field.Int 2]] none
        = ("[\x7b\"a\":2\x7d]", Except.ok ())
      ∧ ([("a", JsonValue.num (JsonNumber.ofInt 2))] : JsonObject).length ≠ 2 := by
  refine ⟨by decide, by decide, by decide⟩

/-- C5 (amended): when the column names are distinct, JSON emission buffers
all projected rows and serializes them in one write as a single JSON array
of exactly M objects, each carrying exactly the N column names as keys; with
duplicated column names the later column overwrites the earlier key (see the
counterexample). -/
theorem c5_json_array_structure (cols : List ColumnDescr) (rows : List (List Field))
    (objs : List JsonObject)
    (hnd : (cols.map ColumnDescr.name).Nodup)
    (hlen : ∀ row ∈ rows, row.length = cols.length)
    (hM : rows.length ≤ u64Max)
    (hok : jsonCollectRows cols (rows.map Except.ok) = Except.ok objs) :
    display_parquet_data_json cols (rows.map Except.ok) none
        = (serializeArray objs, Except.ok ())
      ∧ objs.length = rows.length
      ∧ ∀ obj ∈ objs, keysOf obj = cols.map ColumnDescr.name := by
  have htake : (rows.map (Except.ok : List Field → RowResult)).take u64Max
      = rows.map Except.ok :=
    List.take_of_length_le (by rw [List.length_map]; exact hM)
  refine ⟨?_, ?_, ?_⟩
  · unfold display_parquet_data_json
    simp only [Option.getD]
    rw [htake, hok]
  · rw [jsonCollectRows_length cols _ objs hok, List.length_map]
  · intro obj hobj
    obtain ⟨row, hmem, hrow⟩ := jsonCollectRows_ok_objs cols _ objs hok obj hobj
    obtain ⟨row2, hrow2, heq⟩ := List.mem_map.mp hmem
    have : row2 = row := by injection heq
    subst this
    exact jsonRowObject_keys cols row2 obj (hlen row2 hrow2) hnd hrow

/-- C5 witness at a one-column, one-row file with a distinct name. -/
theorem c5_json_array_structure_witness :
    display_parquet_data_json [⟨"a", "INT32", none⟩] ([[Field.Int 1]].map Except.ok) none
        = (serializeArray [[("a", JsonValue.num (JsonNumber.ofInt 1))]], Except.ok ())
      ∧ ([[("a", JsonValue.num (JsonNumber.ofInt 1))]] : List JsonObject).length = 1
      ∧ ∀ obj ∈ ([[("a", JsonValue.num (JsonNumber.ofInt 1))]] : List JsonObject),
          keysOf obj = ([⟨"a", "INT32", none⟩] : List ColumnDescr).map ColumnDescr.name :=
  c5_json_array_structure [⟨"a", "INT32", none⟩] [[Field.Int 1]]
    [[("a", JsonValue.num (JsonNumber.ofInt 1))]]
    (by decide) (by decide) (by decide) (by decide)

/-- C10: with duplicated column names the JSON projection of a row keeps one
entry per distinct column name — the keys are distinct, they are exactly the
column names, each key's value is the conversion of the last same-named
column's field — so the object has fewer keys than N; CSV emission is
unaffected and still emits one field per column. -/
theorem c10_duplicate_name_collapse (cols : List ColumnDescr) (row : List Field)
    (obj : JsonObject) (hlen : row.length = cols.length)
    (hok : jsonRowObject cols row = Except.ok obj) :
    (keysOf obj).Nodup
      ∧ (∀ k, k ∈ keysOf obj ↔ k ∈ cols.map ColumnDescr.name)
      ∧ (∀ k, lookupA k obj = (match lastFieldNamed k (cols.zip row) with
          | some f => jsonOfField f
          | none => none))
      ∧ (¬ (cols.map ColumnDescr.name).Nodup → obj.length < cols.length)
      ∧ display_parquet_data_csv cols [Except.ok row] none
          = (writeRecord (cols.map ColumnDescr.name) ++ writeRecord (row.map csvField),
             Except.ok ())
      ∧ (row.map csvField).length = cols.length := by
  have hzipok : jsonRowZip (cols.zip row) [] = Except.ok obj := by
    rw [← jsonRowObject_eq_zip cols row (le_of_eq hlen)]
    exact hok
  have hzipnames : (cols.zip row).map (fun p => p.1.name) = cols.map ColumnDescr.name :=
    zip_names cols row (le_of_eq hlen.symm)
  have hnodup : (keysOf obj).Nodup :=
    jsonRowZip_keys_nodup (cols.zip row) [] obj hzipok (by simp [keysOf])
  have hmem : ∀ k, k ∈ keysOf obj ↔ k ∈ cols.map ColumnDescr.name := by
    intro k
    rw [jsonRowZip_mem_keys (cols.zip row) [] obj hzipok k, hzipnames]
    simp [keysOf]
  refine ⟨hnodup, hmem, ?_, ?_, ?_, ?_⟩
  · intro k
    rw [jsonRowZip_lookupA (cols.zip row) [] obj hzipok k]
    cases lastFieldNamed k (cols.zip row) <;> rfl
  · intro hdup
    have h1 : obj.length = (keysOf obj).length := (List.length_map _ _).symm
    have h2 : (keysOf obj).toFinset.card = (keysOf obj).length :=
      List.toFinset_card_of_nodup hnodup
    have h3 : (keysOf obj).toFinset = (cols.map ColumnDescr.name).toFinset := by
      apply Finset.ext
      intro k
      rw [List.mem_toFinset, List.mem_toFinset]
      exact hmem k
    have h4 : (cols.map ColumnDescr.name).toFinset.card
        = (cols.map ColumnDescr.name).dedup.length :=
      List.card_toFinset _
    have h5 : (cols.map ColumnDescr.name).dedup.length
        < (cols.map ColumnDescr.name).length := by
      apply lt_of_le_of_ne (List.Sublist.length_le (List.dedup_sublist _))
      intro heq
      exact hdup ((List.dedup_sublist _).eq_of_length heq ▸ List.nodup_dedup _)
    rw [h1, ← h2, h3, h4]
    calc (cols.map ColumnDescr.name).dedup.length
        < (cols.map ColumnDescr.name).length := h5
      _ = cols.length := List.length_map _ _
  · have hsingle : ∀ r ∈ [row], r.length = cols.length := by
      intro r hr
      rcases List.mem_cons.mp hr with rfl | hc
      · exact hlen
      · cases hc
    have hd := display_csv_ok_rows cols [row] none hsingle
    have htake1 : ([row] : List (List Field)).take ((none : Option Nat).getD u64Max)
        = [row] :=
      List.take_of_length_le (by simp [u64Max])
    rw [htake1] at hd
    have h0 : ([Except.ok row] : List RowResult) = [row].map Except.ok := rfl
    rw [h0, hd]
    simp only [List.map_cons, List.map_nil, strJoin]
    rw [str_append_empty]
  · rw [List.length_map]
    exact hlen

/-- C10 witness: the two same-named columns of the counterexample collapse
to a single key, one fewer than the column count, while the CSV record keeps
both fields. -/
theorem c10_duplicate_name_collapse_witness :
    ([("a", JsonValue.num (JsonNumber.ofInt 2))] : JsonObject).length < 2
      ∧ ([Field.Int 1, Field.Int 2].map csvField).length = 2 :=
  ⟨(c10_duplicate_name_collapse [⟨"a", "INT32", none⟩, ⟨"a", "INT32", none⟩]
      [Field.Int 1, Field.Int 2] [("a", JsonValue.num (JsonNumber.ofInt 2))]
      (by decide) (by decide)).2.2.2.1 (by decide),
   (c10_duplicate_name_collapse [⟨"a", "INT32", none⟩, ⟨"a", "INT32", none⟩]
      [Field.Int 1, Field.Int 2] [("a", JsonValue.num (JsonNumber.ofInt 2))]
      (by decide) (by decide)).2.2.2.2.2⟩

/-- C6: the CSV projection uses a string field value verbatim and renders
every other tag through the value's generic textual representation —
integers in decimal, booleans as true or false, floats by their decimal
text, any remaining tag by its Display text. -/
theorem c6_csv_projection :
    (∀ s, csvField (Field.Str s) = s)
    ∧ (∀ f : Field, (∀ s, f ≠ Field.Str s) → csvField f = fieldToString f)
    ∧ (∀ i, fieldToString (Field.Int i) = toString i)
    ∧ (∀ i, fieldToString (Field.Long i) = toString i)
    ∧ (∀ b, fieldToString (Field.Bool b) = if b then "true" else "false")
    ∧ (∀ v, fieldToString (Field.Float v) = v.text)
    ∧ (∀ v, fieldToString (Field.Double v) = v.text)
    ∧ (∀ t, fieldToString (Field.Other t) = t) := by
  refine ⟨fun s => rfl, ?_, fun i => rfl, fun i => rfl, fun b => rfl, fun v => rfl,
    fun v => rfl, fun t => rfl⟩
  intro f hf
  cases f with
  | Str s => exact absurd rfl (hf s)
  | Int i => rfl
  | Long i => rfl
  | Float v => rfl
  | Double v => rfl
  | Bool b => rfl
  | Other t => rfl

/-- C6 witness: a non-string field goes through the Display rendering. -/
theorem c6_csv_projection_witness :
    csvField (Field.Int 5) = fieldToString (Field.Int 5) :=
  c6_csv_projection.2.1 (Field.Int 5) (fun s h => Field.noConfusion h)

/-- C7: the schema table holds the fixed three-cell header row first, then
one three-cell row (name, physical type, logical type or empty) per column
descriptor in declared order — N+1 table rows in total. -/
theorem c7_schema_table (cols : List ColumnDescr) :
    (display_parquet_schema cols).length = cols.length + 1
      ∧ (display_parquet_schema cols).head?
          = some ["Column name", "Physical type", "Logical type"]
      ∧ (∀ r ∈ display_parquet_schema cols, r.length = 3)
      ∧ (∀ i (h : i < cols.length), (display_parquet_schema cols).get? (i + 1)
          = some [(cols.get ⟨i, h⟩).name, (cols.get ⟨i, h⟩).physical_type,
                  (cols.get ⟨i, h⟩).logical_type.getD ""]) := by
  refine ⟨by simp [display_parquet_schema], rfl, ?_, ?_⟩
  · intro r hr
    rcases List.mem_cons.mp hr with rfl | hmem
    · rfl
    · obtain ⟨c, _, rfl⟩ := List.mem_map.mp hmem
      rfl
  · intro i h
    simp only [display_parquet_schema, List.get?_cons_succ, List.get?_map,
      List.get?_eq_get h]
    rfl

/-- C7 witness at a one-column schema. -/
theorem c7_schema_table_witness :
    (display_parquet_schema [⟨"a", "INT32", some "String"⟩]).get? 1
      = some ["a", "INT32", "String"] :=
  (c7_schema_table [⟨"a", "INT32", some "String"⟩]).2.2.2 0 (by decide)

/-- C8: a file-open or parse failure surfaced by the Row Source is caught at
the top of the subcommand arm, printed to standard error behind a
descriptive text, and the process still exits with status 0 — the same
status every successful run returns; a parse failure on the first row is
likewise caught (CSV has then already printed the header, JSON prints
nothing). -/
theorem c8_errors_exit_zero :
    (∀ (cmd : Subcommand) (e : String),
        main cmd ⟨Except.error e⟩ = ⟨"", errTextOf cmd ++ e ++ "\n", 0⟩)
    ∧ (∀ (file : String) (cols : List ColumnDescr) (e : String) (rest : List RowResult),
        main (Subcommand.cat file Format.csv) ⟨Except.ok (cols, Except.error e :: rest)⟩
          = ⟨writeRecord (cols.map ColumnDescr.name), "Error displaying file: " ++ e ++ "\n", 0⟩)
    ∧ (∀ (file : String) (cols : List ColumnDescr) (e : String) (rest : List RowResult),
        main (Subcommand.cat file Format.json) ⟨Except.ok (cols, Except.error e :: rest)⟩
          = ⟨"", "Error displaying file: " ++ e ++ "\n", 0⟩)
    ∧ (∀ (file : String) (cols : List ColumnDescr) (records : List RowResult),
        (main (Subcommand.schema file) ⟨Except.ok (cols, records)⟩).exitCode = 0)
    ∧ (∀ (file : String) (fmt : Format) (cols : List ColumnDescr),
        (main (Subcommand.cat file fmt) ⟨Except.ok (cols, [])⟩).exitCode = 0) := by
  have hsucc : u64Max = (u64Max - 1) + 1 := by decide
  refine ⟨?_, ?_, ?_, fun file cols records => rfl, ?_⟩
  · intro cmd e
    cases cmd with
    | cat file format =>
        cases format <;>
          simp [main, display_parquet_data, reportErrors, errTextOf]
    | head file format n =>
        cases format <;>
          simp [main, display_parquet_data, reportErrors, errTextOf]
    | schema file => rfl
  · intro file cols e rest
    simp only [main, display_parquet_data, display_parquet_data_csv, Option.getD]
    rw [hsucc, List.take_succ_cons]
    simp only [csvWriteRows, reportErrors, Except.mapError]
    rw [str_append_empty]
  · intro file cols e rest
    simp only [main, display_parquet_data, display_parquet_data_json, Option.getD]
    rw [hsucc, List.take_succ_cons]
    simp only [jsonCollectRows, reportErrors]
  · intro file fmt cols
    cases fmt with
    | csv =>
        simp only [main, display_parquet_data, display_parquet_data_csv, Option.getD,
          List.take_nil, csvWriteRows, reportErrors, Except.mapError]
    | json =>
        simp only [main, display_parquet_data, display_parquet_data_json, Option.getD,
          List.take_nil, jsonCollectRows, reportErrors]

end PqUtils
